import Mathlib

/-!  Verification of the xyz2sgf.js core: a shallow embedding of the
property-tree model, the coordinate and handicap helpers, the three
format parsers, the tree normalizer and the serializer, together with
theorems settling the specification claims.  JavaScript numbers that can
be NaN are modelled as `Option`; `none` stands for NaN and fails every
comparison, exactly as NaN does. -/

set_option autoImplicit false

namespace Xyz2Sgf

/-! ### JavaScript number primitives -/

/-- A JavaScript number known to be an integer whenever it is not NaN
(results of parseInt, charCodeAt arithmetic, ...); `none` is NaN. -/
abbrev JsInt := Option Int

/-- An exact finite JavaScript number as an integer fraction with positive
denominator (every finite value this program manipulates is such a
fraction; representations need not be reduced, and every observation below
— strict equality, truthiness, truncation, decimal printing — is
representation-independent). -/
structure JsRat where
  num : Int
  den : Int
  deriving Repr

/-- Embeds an integer value. -/
def JsRat.ofInt (n : Int) : JsRat := { num := n, den := 1 }

/-- A general JavaScript number; `none` is NaN. -/
abbrev JsNum := Option JsRat

/-- JavaScript `x < c` (NaN compares false). -/
def jltI (x : JsInt) (c : Int) : Bool :=
  match x with
  | none => false
  | some v => v < c

/-- JavaScript `x > c` (NaN compares false). -/
def jgtI (x : JsInt) (c : Int) : Bool :=
  match x with
  | none => false
  | some v => c < v

/-- JavaScript `x >= c` (NaN compares false). -/
def jgeI (x : JsInt) (c : Int) : Bool :=
  match x with
  | none => false
  | some v => c ≤ v

/-- JavaScript strict equality `===` on two integer-or-NaN numbers;
`NaN === x` is false for every `x`, including NaN itself. -/
def jeqI (x y : JsInt) : Bool :=
  match x, y with
  | some a, some b => a = b
  | _, _ => false

/-- JavaScript `x > y` for two integer-or-NaN numbers. -/
def jgtII (x y : JsInt) : Bool :=
  match x, y with
  | some a, some b => b < a
  | _, _ => false

/-- Addition of a constant; NaN propagates. -/
def jaddI (x : JsInt) (c : Int) : JsInt := x.map (fun v => v + c)

/-- Subtraction of a constant; NaN propagates. -/
def jsubI (x : JsInt) (c : Int) : JsInt := x.map (fun v => v - c)

/-- Subtraction of two integer-or-NaN numbers; NaN propagates. -/
def jsubII (x y : JsInt) : JsInt :=
  match x, y with
  | some a, some b => some (a - b)
  | _, _ => none

/-- JavaScript strict equality on two general numbers (NaN never equal);
value equality of fractions is cross-multiplication. -/
def jeqQ (x y : JsNum) : Bool :=
  match x, y with
  | some a, some b => a.num * b.den = b.num * a.den
  | _, _ => false

/-- Addition of a fraction constant; NaN propagates. -/
def jaddQ (x : JsNum) (c : JsRat) : JsNum :=
  x.map (fun v => { num := v.num * c.den + c.num * v.den, den := v.den * c.den })

/-- Truthiness of a number: NaN and 0 are falsy. -/
def jTruthy (x : JsNum) : Bool :=
  match x with
  | none => false
  | some v => ¬ v.num = 0

/-- `Number.isInteger` applied to a parseInt result: true exactly when the
value is not NaN, since parseInt only produces integers. -/
def jsIsInteger (x : JsInt) : Bool := x.isSome

/-- `Number.isFinite` applied to a parseFloat result (Infinity literals are
not modelled, see `jsParseFloat`). -/
def jsIsFinite (x : JsNum) : Bool := x.isSome

/-- Division of an integer-or-NaN number by a positive integer constant,
as the exact JavaScript float division performed on the small values
here. -/
def jdivQ (x : JsInt) (c : Int) : JsNum := x.map (fun v => { num := v, den := c })

/-! ### JavaScript string primitives.

JavaScript indexes strings by UTF-16 code units; the model indexes code
points instead.  The two agree on every string free of supplementary-plane
characters, which covers all inputs the verified claims touch. -/

/-- Whitespace test used by trim and the `\s` regex class. -/
def isWs (c : Char) : Bool := c.isWhitespace

/-- `String.prototype.trim`. -/
def jsTrim (s : String) : String :=
  String.mk (((s.data.dropWhile isWs).reverse.dropWhile isWs).reverse)

/-- `String.prototype.split` with a one-character separator, on the
character list. -/
def jsSplitChars (sep : Char) : List Char → List (List Char)
  | [] => [[]]
  | c :: rest =>
    let r := jsSplitChars sep rest
    if c = sep then [] :: r
    else
      match r with
      | [] => [[c]]
      | h :: t => (c :: h) :: t

/-- `String.prototype.split` with a one-character separator. -/
def jsSplit (s : String) (sep : Char) : List String :=
  (jsSplitChars sep s.data).map String.mk

/-- Tokenizer behind `jsSplitWsStr`: `acc` holds the reversed characters of
the token currently being read. -/
def wsTokensAux (acc : List Char) : List Char → List String
  | [] => if acc = [] then [] else [String.mk acc.reverse]
  | c :: rest =>
    if isWs c then
      if acc = [] then wsTokensAux [] rest
      else String.mk acc.reverse :: wsTokensAux [] rest
    else wsTokensAux (c :: acc) rest

/-- Maximal runs of non-whitespace characters, in order. -/
def wsTokens (l : List Char) : List String := wsTokensAux [] l

/-- `String.prototype.split(/\s+/)` for strings without leading whitespace
(every call site trims first): whitespace runs separate the tokens, and the
empty string yields `[""]`. -/
def jsSplitWsStr (s : String) : List String :=
  if s = "" then [""] else wsTokens s.data

/-- ASCII `String.prototype.toUpperCase` (no claim involves the non-ASCII
case mappings where JavaScript differs). -/
def jsToUpper (s : String) : String := String.mk (s.data.map Char.toUpper)

/-- `String.prototype.charAt`: one-character string, or `""` out of range. -/
def jsCharAt (s : String) (i : Nat) : String :=
  match s.data.get? i with
  | some c => String.mk [c]
  | none => ""

/-- `String.prototype.charCodeAt`: NaN out of range. -/
def jsCharCodeAt (s : String) (i : Nat) : JsInt :=
  (s.data.get? i).map (fun c => (c.toNat : Int))

/-- Clamp a (possibly negative) slice index to `[0, len]` as
`String.prototype.slice` does. -/
def jsSliceIdx (len : Nat) (i : Int) : Nat :=
  if i < 0 then ((len : Int) + i).toNat else min i.toNat len

/-- `String.prototype.slice` with both endpoints (negative counts from the
end). -/
def jsSlice (s : String) (a b : Int) : String :=
  let len := s.data.length
  let st := jsSliceIdx len a
  let en := jsSliceIdx len b
  String.mk ((s.data.drop st).take (en - st))

/-- `String.prototype.slice` with only a start index. -/
def jsSliceFrom (s : String) (a : Int) : String :=
  jsSlice s a (s.data.length : Int)

/-- `String.prototype.startsWith`. -/
def jsStartsWith (s p : String) : Bool := p.data.isPrefixOf s.data

/-- `String.prototype.endsWith`. -/
def jsEndsWith (s p : String) : Bool := p.data.isSuffixOf s.data

/-- Substring containment, the effect of `/lit/.test(s)` for a literal
pattern. -/
def containsSub (s pat : String) : Bool :=
  (List.range (s.data.length + 1)).any (fun i => pat.data.isPrefixOf (s.data.drop i))

/-- JavaScript array indexing where the call site either guarantees the
element exists or treats `undefined` like the empty string through a
truthiness test. -/
def idx (l : List String) (i : Nat) : String := (l.get? i).getD ""

/-- Truthiness of a possibly-undefined string: `undefined` and `""` are
falsy. -/
def jsTruthyStrOpt (x : Option String) : Bool :=
  match x with
  | none => false
  | some s => ¬ s = ""

/-! ### parseInt / parseFloat / number formatting -/

/-- Value of a run of decimal digits. -/
def decVal (l : List Char) : Nat :=
  l.foldl (fun a c => a * 10 + (c.toNat - 48)) 0

/-- Hexadecimal digit test. -/
def isHexDigit (c : Char) : Bool :=
  c.isDigit || ('a' ≤ c && c ≤ 'f') || ('A' ≤ c && c ≤ 'F')

/-- Value of one hexadecimal digit. -/
def hexDigitVal (c : Char) : Nat :=
  if c.isDigit then c.toNat - 48
  else if 'a' ≤ c ∧ c ≤ 'f' then c.toNat - 87
  else c.toNat - 55

/-- Value of a run of hexadecimal digits. -/
def hexVal (l : List Char) : Nat :=
  l.foldl (fun a c => a * 16 + hexDigitVal c) 0

/-- JavaScript `parseInt(s)` with no radix argument: leading whitespace and
an optional sign are skipped, a `0x`/`0X` prefix selects base 16, and the
maximal digit run is converted; NaN when no digit follows. -/
def jsParseInt (s : String) : JsInt :=
  let l := s.data.dropWhile isWs
  let sign : Int := match l.head? with | some '-' => -1 | _ => 1
  let l := match l.head? with | some '-' => l.tail | some '+' => l.tail | _ => l
  match l with
  | '0' :: c :: r =>
    if c = 'x' ∨ c = 'X' then
      let ds := r.takeWhile isHexDigit
      if ds.isEmpty then none else some (sign * (hexVal ds : Int))
    else
      some (sign * (decVal (List.takeWhile Char.isDigit ('0' :: c :: r)) : Int))
  | _ =>
    let ds := l.takeWhile Char.isDigit
    if ds.isEmpty then none else some (sign * (decVal ds : Int))

/-- parseInt of a possibly-undefined string; `parseInt(undefined)` parses
the string "undefined" and gives NaN. -/
def jsParseIntU (s : Option String) : JsInt :=
  match s with
  | none => none
  | some v => jsParseInt v

/-- JavaScript `parseFloat`: leading whitespace, optional sign, decimal
digits with optional fraction and exponent.  `Infinity` literals are not
modelled (they are treated as NaN); no verified claim depends on them. -/
def jsParseFloat (s : String) : JsNum :=
  let l := s.data.dropWhile isWs
  let sign : Int := match l.head? with | some '-' => -1 | _ => 1
  let l := match l.head? with | some '-' => l.tail | some '+' => l.tail | _ => l
  let ip := l.takeWhile Char.isDigit
  let l1 := l.dropWhile Char.isDigit
  let fp := match l1 with
    | '.' :: r => r.takeWhile Char.isDigit
    | _ => []
  let l2 := match l1 with
    | '.' :: r => r.dropWhile Char.isDigit
    | _ => l1
  if ip.isEmpty ∧ fp.isEmpty then none
  else
    let mant : JsRat :=
      { num := (decVal ip : Int) * (10 : Int) ^ fp.length + (decVal fp : Int),
        den := (10 : Int) ^ fp.length }
    let expPart : Int :=
      match l2 with
      | 'e' :: r =>
        let es : Int := match r.head? with | some '-' => -1 | _ => 1
        let r1 := match r.head? with | some '-' => r.tail | some '+' => r.tail | _ => r
        let ds := r1.takeWhile Char.isDigit
        if ds.isEmpty then 0 else es * (decVal ds : Int)
      | 'E' :: r =>
        let es : Int := match r.head? with | some '-' => -1 | _ => 1
        let r1 := match r.head? with | some '-' => r.tail | some '+' => r.tail | _ => r
        let ds := r1.takeWhile Char.isDigit
        if ds.isEmpty then 0 else es * (decVal ds : Int)
      | _ => 0
    let scaled : JsRat :=
      if 0 ≤ expPart then
        { num := mant.num * (10 : Int) ^ expPart.toNat, den := mant.den }
      else
        { num := mant.num, den := mant.den * (10 : Int) ^ (-expPart).toNat }
    some { num := sign * scaled.num, den := scaled.den }

/-- parseFloat of a possibly-undefined string (`undefined` gives NaN). -/
def jsParseFloatU (s : Option String) : JsNum :=
  match s with
  | none => none
  | some v => jsParseFloat v

/-- parseInt applied to a number value: JavaScript stringifies the number
and reparses it, which truncates toward zero for the plain decimal
magnitudes arising in this program; NaN stays NaN.  `Int.tdiv` truncates
toward zero, matching on the positive denominators maintained here. -/
def jsParseIntOfNum (x : JsNum) : JsNum :=
  x.map (fun v => JsRat.ofInt (Int.tdiv v.num v.den))

/-- String conversion of an integer-or-NaN number (`String(NaN) = "NaN"`). -/
def jsIntToString (x : JsInt) : String :=
  match x with
  | none => "NaN"
  | some n => toString n

/-- Decimal digits of a fractional part in `[0, 1)` (a fraction with
`0 ≤ num < den`); the fuel bounds the number of digits and is ample for
the short decimal fractions this program prints (halves and tenths). -/
def fracDigits : Nat → JsRat → List Char
  | 0, _ => []
  | fuel + 1, q =>
    if q.num = 0 then []
    else
      let n10 := q.num * 10
      let d := n10.ediv q.den
      Char.ofNat (48 + d.toNat) :: fracDigits fuel { num := n10 - d * q.den, den := q.den }

/-- Decimal string of a nonnegative fraction with positive denominator. -/
def ratToDecString (v : JsRat) : String :=
  let ip := v.num.ediv v.den
  let frac : JsRat := { num := v.num - ip * v.den, den := v.den }
  if frac.num = 0 then toString ip
  else toString ip ++ "." ++ String.mk (fracDigits 30 frac)

/-- String conversion of a general number value, matching JavaScript on the
finite values this program stores (integers and short decimal fractions). -/
def jsNumToString (x : JsNum) : String :=
  match x with
  | none => "NaN"
  | some v =>
    if v.num < 0 then "-" ++ ratToDecString { num := -v.num, den := v.den }
    else ratToDecString v

/-! ### Errors -/

/-- The error classes thrown by the core (`ValueError`, `BadBoardSize`,
`ParserFail`) plus the TypeError produced by calling a method that does not
exist. -/
inductive JsErr where
  | valueError
  | badBoardSize
  | parserFail
  | typeError
  deriving DecidableEq, Repr

/-! ### The property tree -/

/-- Property map of a node: a JavaScript `Map` from tag to value array,
iterated in key-insertion order. -/
abbrev PropMap := List (String × List String)

/-- `Map.prototype.get`, as an `Option`. -/
def getP (m : PropMap) (k : String) : Option (List String) :=
  match m with
  | [] => none
  | (k', v) :: rest => if k' = k then some v else getP rest k

/-- `Map.prototype.has`. -/
def hasP (m : PropMap) (k : String) : Bool := (getP m k).isSome

/-- `Map.prototype.set`: replaces in place when the key exists, appends
otherwise (JavaScript Map insertion-order semantics). -/
def setP (m : PropMap) (k : String) (v : List String) : PropMap :=
  match m with
  | [] => [(k, v)]
  | (k', v') :: rest => if k' = k then (k, v) :: rest else (k', v') :: setP rest k v

/-- `Map.prototype.delete`. -/
def delP (m : PropMap) (k : String) : PropMap :=
  match m with
  | [] => []
  | (k', v') :: rest => if k' = k then rest else (k', v') :: delP rest k

/-- safeString from xyz2sgf.js: backslash-escapes every `]` and `\`. -/
def safeString (s : String) : String :=
  String.mk (s.data.foldr
    (fun c acc => if c = ']' ∨ c = '\\' then '\\' :: c :: acc else c :: acc) [])

/-- Node.setValue: the key gets exactly this one value. -/
def setValueP (m : PropMap) (k v : String) : PropMap := setP m k [v]

/-- Node.addValue: ensures the key exists, then appends the value only if
not already present. -/
def addValueP (m : PropMap) (k v : String) : PropMap :=
  match getP m k with
  | none => setP m k [v]
  | some vs => if v ∈ vs then m else setP m k (vs ++ [v])

/-- Node.safeCommit: stores the escaped value, or destroys the key when the
escaped value is the empty string. -/
def safeCommitP (m : PropMap) (k v : String) : PropMap :=
  let s := safeString v
  if ¬ s = "" then setP m k [s] else delP m k

/-- A finalized tree node: properties plus ordered children.  The parent
back-reference of the JavaScript class is a build-time device only; the
parsers below model it through their explicit current-chain state. -/
inductive Node where
  | mk (props : PropMap) (children : List Node)

/-- Properties of a node. -/
def Node.props : Node → PropMap
  | .mk p _ => p

/-- Children of a node. -/
def Node.children : Node → List Node
  | .mk _ c => c

/-- Every parser appends move nodes linearly (each fresh node becomes the
current node), so the nodes below the root always form a single chain,
rebuilt here from the recorded (key, value) list. -/
def chainNodes : List (String × String) → List Node
  | [] => []
  | (k, v) :: rest => [Node.mk [(k, [v])] (chainNodes rest)]

/-- Root node from root properties plus the linear move chain. -/
def buildTree (rootProps : PropMap) (chain : List (String × String)) : Node :=
  Node.mk rootProps (chainNodes chain)

/-! ### Coordinate encoder -/

/-- `String.fromCharCode` on an integer-or-NaN argument: the code unit is
ToUint16 of the value, and NaN maps to 0.  All reachable call sites pass
codes in `[97, 122]` or NaN. -/
def jsFromCharCode (x : JsInt) : Char :=
  match x with
  | none => Char.ofNat 0
  | some n => Char.ofNat (n % 65536).toNat

/-- stringFromPoint from xyz2sgf.js over integer-or-NaN coordinates.  NaN
fails every comparison, so NaN coordinates pass the range check and are
encoded through `jsFromCharCode`. -/
def stringFromPointNum (x y : JsInt) : Except JsErr String :=
  if jltI x 1 || jgtI x 26 || jltI y 1 || jgtI y 26 then
    .error .valueError
  else
    .ok (String.mk [jsFromCharCode (jaddI x 96), jsFromCharCode (jaddI y 96)])

/-- stringFromPoint restricted to genuine integer coordinates. -/
def stringFromPoint (x y : Int) : Except JsErr String :=
  stringFromPointNum (some x) (some y)

/-! ### Handicap point generator -/

/-- JavaScript `x % 2 === 0` (NaN gives false). -/
def jsEvenB (x : JsInt) : Bool :=
  match x with
  | none => false
  | some v => v % 2 = 0

/-- `Math.floor((x + 1) / 2)`; NaN propagates. -/
def jsMidpoint (x : JsInt) : JsInt := x.map (fun v => (v + 1).ediv 2)

/-- `Array.prototype.includes` of an integer-or-NaN number in a constant
integer list. -/
def jsIncludedIn (x : JsInt) (l : List Int) : Bool :=
  match x with
  | none => false
  | some v => l.contains v

/-- handicapPoints from xyz2sgf.js.  The JavaScript `Set` receives a
freshly allocated array on every `add`, so each add genuinely appends; the
insertion-ordered list of added points models the set. -/
def handicapPoints (boardsize handicap : JsInt) (tygem : Bool) : List (JsInt × JsInt) :=
  if jltI boardsize 4 then []
  else
    let handicap := if jgtI handicap 9 then some 9 else handicap
    let d : Int := if jltI boardsize 13 then 2 else 3
    let pts : List (JsInt × JsInt) := []
    let pts := if jgeI handicap 2 then
        pts ++ [(jsubI boardsize d, some (1 + d)), (some (1 + d), jsubI boardsize d)]
      else pts
    let pts := if jgeI handicap 3 then
        pts ++ [if tygem then (some (1 + d), some (1 + d))
                else (jsubI boardsize d, jsubI boardsize d)]
      else pts
    let pts := if jgeI handicap 4 then
        pts ++ [if tygem then (jsubI boardsize d, jsubI boardsize d)
                else (some (1 + d), some (1 + d))]
      else pts
    if jsEvenB boardsize then pts
    else
      let mid := jsMidpoint boardsize
      let pts := if jsIncludedIn handicap [5, 7, 9] then pts ++ [(mid, mid)] else pts
      let pts := if jsIncludedIn handicap [6, 7, 8, 9] then
          pts ++ [(some (1 + d), mid), (jsubI boardsize d, mid)]
        else pts
      let pts := if jsIncludedIn handicap [8, 9] then
          pts ++ [(mid, some (1 + d)), (mid, jsubI boardsize d)]
        else pts
      pts

/-! ### Tree normalizer (parse in xyz2sgf.js, minus loader dispatch) -/

/-- The number that parse() compares against the `[1, 19]` bounds: the
parseInt of the first stored SZ value when SZ is present, 19 otherwise. -/
def normSize (root : Node) : JsInt :=
  match getP root.props "SZ" with
  | some vs => jsParseIntU (vs.get? 0)
  | none => some 19

/-- Tree normalization from parse() in xyz2sgf.js: force FF, GM, CA,
default SZ to 19 when absent, and throw BadBoardSize when the parsed size
is greater than 19 or less than 1 (a NaN size fails both comparisons). -/
def normalize (root : Node) : Except JsErr Node :=
  let props := root.props
  let props := setValueP props "FF" "4"
  let props := setValueP props "GM" "1"
  let props := setValueP props "CA" "UTF-8"
  let sp : JsInt × PropMap :=
    match getP props "SZ" with
    | some vs => (jsParseIntU (vs.get? 0), props)
    | none => (some 19, setValueP props "SZ" "19")
  if jgtI sp.1 19 || jltI sp.1 1 then .error .badBoardSize
  else .ok (Node.mk sp.2 root.children)

/-! ### Serializer (writeTree in xyz2sgf.js)

The emitted text is modelled as a token list: one token per
`writeStream.write` call — `(`, `;`, a key, a bracketed value, `)\n`. -/

/-- One serializer output token. -/
inductive Tok where
  | lp
  | semi
  | key (k : String)
  | val (v : String)
  | close
  deriving DecidableEq, Repr

/-- Tokens of one node statement body: each key followed by its values in
insertion order. -/
def propToks (m : PropMap) : List Tok :=
  m.flatMap (fun kv => Tok.key kv.1 :: kv.2.map Tok.val)

mutual

/-- One run of writeTree's while loop starting at a node: the node
statement, then either the single child continuing the flat chain, or all
children (two or more) each emitted as a nested group, after which the
loop breaks. -/
def chainToks (n : Node) : List Tok :=
  match n with
  | .mk props children =>
    Tok.semi :: propToks props ++
      (match children with
       | [] => []
       | [c] => chainToks c
       | c1 :: c2 :: rest => groupsToks (c1 :: c2 :: rest))

/-- Recursive writeTree calls over a child list. -/
def groupsToks (l : List Node) : List Tok :=
  match l with
  | [] => []
  | c :: rest => writeTreeToks c ++ groupsToks rest

/-- writeTree from xyz2sgf.js: `(`, the chain of node statements, `)\n`. -/
def writeTreeToks (n : Node) : List Tok :=
  Tok.lp :: chainToks n ++ [Tok.close]

end

/-- A linear chain of nodes: the head properties, then one child per
further property map, with no branching anywhere. -/
def mkChain (p : PropMap) : List PropMap → Node
  | [] => Node.mk p []
  | q :: rest => Node.mk p [mkChain q rest]

/-- Attaches handicap stones: `for (point of stones) addValue("AB",
stringFromPoint(point))`, with the ValueError of an out-of-range point
propagating (no try around these calls in the source). -/
def addStones (m : PropMap) : List (JsInt × JsInt) → Except JsErr PropMap
  | [] => .ok m
  | (x, y) :: rest =>
    match stringFromPointNum x y with
    | .error e => .error e
    | .ok v => addStones (addValueP m "AB" v) rest

/-! ### Parser C: parseUgf -/

/-- Loop state of parseUgf.  `boardsize` and `handicap` start as null and
may become parseInt results; null and NaN are merged into `none` here,
which is faithful because the only code observing them (the `[HEADER]` and
`[DATA]` branches, where null would coerce to 0 in comparisons) is
unreachable — the section variable is never assigned, see the claim C1
theorem. -/
structure UgfState where
  rootProps : PropMap
  chain : List (String × String)
  boardsize : JsInt
  handicap : JsInt
  handicapStonesSet : Int
  coordinateType : String
  sect : Option String

/-- Initial parseUgf state. -/
def ugfInit : UgfState :=
  { rootProps := [], chain := [], boardsize := none, handicap := none,
    handicapStonesSet := 0, coordinateType := "", sect := none }

/-- The try block at the top of parseUgf's loop (source lines 291–311).
Its first expression is `line.chatAt(0)` — `chatAt` is not a method of
JavaScript strings, so a TypeError is thrown before the bracket
comparison, the shadowing inner `section` constant, or the `[DATA]` sanity
checks can execute; the empty catch swallows the error and control falls
through to the section dispatch. -/
def ugfBracketTry (_line : String) : Except JsErr Unit :=
  .error .typeError

/-- Body of the `section === "[HEADER]"` branch of parseUgf. -/
def ugfHeaderLine (st : UgfState) (line : String) : UgfState :=
  let u := jsToUpper line
  if jsStartsWith u "HDCP=" then
    -- the try/catch around this body is dead: nothing in it can throw
    let part := idx (jsSplit line '=') 1
    let handicap := jsParseInt (idx (jsSplit part ',') 0)
    let rootProps :=
      if jgeI handicap 2 then setValueP st.rootProps "HA" (jsIntToString handicap)
      else st.rootProps
    let komi := jsParseFloatU ((jsSplit part ',').get? 1)
    let rootProps := setValueP rootProps "KM" (jsNumToString komi)
    { st with rootProps := rootProps, handicap := handicap }
  else if jsStartsWith u "SIZE=" then
    let boardsize := jsParseInt (idx (jsSplit line '=') 1)
    { st with boardsize := boardsize,
              rootProps := setValueP st.rootProps "SZ" (jsIntToString boardsize) }
  else if jsStartsWith u "COORDINATETYPE=" then
    { st with coordinateType := jsToUpper (idx (jsSplit line '=') 1) }
  else if jsStartsWith u "PLAYERB=" then
    { st with rootProps := safeCommitP st.rootProps "PB" (jsSliceFrom line 8) }
  else if jsStartsWith u "PLAYERW=" then
    { st with rootProps := safeCommitP st.rootProps "PW" (jsSliceFrom line 8) }
  else if jsStartsWith u "PLACE=" then
    { st with rootProps := safeCommitP st.rootProps "PC" (jsSliceFrom line 6) }
  else if jsStartsWith u "TITLE=" then
    { st with rootProps := safeCommitP st.rootProps "GN" (jsSliceFrom line 6) }
  else if jsStartsWith u "WINNER=B" then
    { st with rootProps := setValueP st.rootProps "RE" "B+" }
  else if jsStartsWith u "WINNER=W" then
    { st with rootProps := setValueP st.rootProps "RE" "W+" }
  else st

/-- Body of the `section === "[DATA]"` branch of parseUgf. -/
def ugfDataLine (st : UgfState) (line0 : String) : UgfState :=
  let line := jsToUpper line0
  let slist := jsSplit line ','
  match slist.get? 1 with
  | none => st   -- slist[1].charAt throws on undefined; caught, continue
  | some s1 =>
    let xChr := jsCharAt (idx slist 0) 0
    let yChr := jsCharAt (idx slist 0) 1
    let colour := jsCharAt s1 0
    if xChr = "" ∨ yChr = "" ∨ colour = "" then st
    else
      let nodeChr := if jsTruthyStrOpt (slist.get? 2) then jsCharAt (idx slist 2) 0 else ""
      if ¬ (colour = "B" ∨ colour = "W") then st
      else
        let x :=
          jsubI (jsCharCodeAt xChr 0) 64
        let y :=
          if st.coordinateType = "IGS" then
            jaddI (jsubII st.boardsize (jsubI (jsCharCodeAt yChr 0) 64)) 1
          else jsubI (jsCharCodeAt yChr 0) 64
        let value? : Option String :=
          if jgtII x st.boardsize || jltI x 1 || jgtII y st.boardsize || jltI y 1 then
            some ""   -- out of range: likely a pass
          else
            match stringFromPointNum x y with
            | .ok v => some v
            | .error _ => none   -- caught, continue
        match value? with
        | none => st
        | some value =>
          let stonesNe : Bool :=   -- handicapStonesSet !== handicap
            match st.handicap with
            | none => true
            | some h => ¬ st.handicapStonesSet = h
          if jgeI st.handicap 2 ∧ stonesNe ∧ nodeChr = "0" ∧ colour = "B"
              ∧ st.chain = [] then
            { st with handicapStonesSet := st.handicapStonesSet + 1,
                      rootProps := addValueP st.rootProps "AB" value }
          else
            { st with chain := st.chain ++ [(colour, value)] }

/-- Dispatch on the (never assigned) section variable. -/
def ugfDispatch (st : UgfState) (line : String) : UgfState :=
  if st.sect = some "[HEADER]" then ugfHeaderLine st line
  else if st.sect = some "[DATA]" then ugfDataLine st line
  else st

/-- One loop iteration of parseUgf. -/
def ugfStep (st : UgfState) (rawLine : String) : UgfState :=
  let line := jsTrim rawLine
  match ugfBracketTry line with
  | .error _ => ugfDispatch st line   -- TypeError swallowed, fall through
  | .ok _ => st                       -- unreachable

/-- parseUgf up to (but not including) the final zero-children check. -/
def parseUgfRaw (s : String) : UgfState :=
  (jsSplit s '\n').foldl ugfStep ugfInit

/-- parseUgf from xyz2sgf.js. -/
def parseUgf (s : String) : Except JsErr Node :=
  let st := parseUgfRaw s
  if st.chain = [] then .error .parserFail
  else .ok (buildTree st.rootProps st.chain)

/-! ### Parser B: parseNgf -/

/-- Move-loop body of parseNgf (source lines 520–545). -/
def ngfMoveLine (chain : List (String × String)) (rawLine : String) :
    List (String × String) :=
  let line := jsToUpper (jsTrim rawLine)
  if 7 ≤ line.data.length then
    if jsSlice line 0 2 = "PM" then
      if jsCharAt line 4 = "B" ∨ jsCharAt line 4 = "W" then
        let key := jsCharAt line 4
        let x := jsubI (jsCharCodeAt line 5) 65
        let y := jsubI (jsCharCodeAt line 6) 65
        match stringFromPointNum x y with
        | .ok value => chain ++ [(key, value)]
        | .error _ => chain   -- caught, continue
      else chain
    else chain
  else chain

/-- parseNgf from xyz2sgf.js up to (but not including) the final
zero-children check.  The inverted `Number.isInteger` / `Number.isFinite`
guards are reproduced faithfully from the source: a PARSABLE board size is
replaced by 19, a parsable handicap by 0 and a parsable komi by 0, while
unparsable ones stay NaN. -/
def parseNgfRaw (ngf0 : String) :
    Except JsErr (PropMap × List (String × String)) :=
  let ngf := jsTrim ngf0
  let lines := jsSplit ngf '\n'
  let boardsize := jsParseIntU (lines.get? 1)
  let boardsize := if jsIsInteger boardsize then some 19 else boardsize
  let handicap := jsParseIntU (lines.get? 5)
  let handicap := if jsIsInteger handicap then some 0 else handicap
  let pw := if jsTruthyStrOpt (lines.get? 2) then idx (jsSplitWsStr (jsTrim (idx lines 2))) 0 else ""
  let pb := if jsTruthyStrOpt (lines.get? 3) then idx (jsSplitWsStr (jsTrim (idx lines 3))) 0 else ""
  let rawdate := if jsTruthyStrOpt (lines.get? 8) then jsSlice (idx lines 8) 0 8 else ""
  let komi := jsParseFloatU (lines.get? 7)
  let komi := if jsIsFinite komi then some (JsRat.ofInt 0) else komi
  let komi :=
    if jeqI handicap (some 0) ∧ jeqQ (jsParseIntOfNum komi) komi then
      jaddQ komi { num := 1, den := 2 }
    else komi
  let re :=
    if jsTruthyStrOpt (lines.get? 10) then
      if containsSub (idx lines 10) "hite win" then "W+"
      else if containsSub (idx lines 10) "lack win" then "B+"
      else ""
    else ""
  if jltI handicap 0 || jgtI handicap 9 then .error .parserFail
  else
    let rootProps := setValueP [] "SZ" (jsIntToString boardsize)
    let withStones : Except JsErr PropMap :=
      if jgeI handicap 2 then
        addStones (setValueP rootProps "HA" (jsIntToString handicap))
          (handicapPoints boardsize handicap true)
      else .ok rootProps
    match withStones with
    | .error e => .error e
    | .ok rootProps =>
      let rootProps :=
        if jTruthy komi then setValueP rootProps "KM" (jsNumToString komi) else rootProps
      let rootProps :=
        if rawdate.data.length = 8 ∧ rawdate.data.all Char.isDigit then
          setValueP rootProps "DT"
            (jsSlice rawdate 0 4 ++ "-" ++ jsSlice rawdate 4 6 ++ "-" ++ jsSlice rawdate 6 8)
        else rootProps
      let rootProps := if ¬ pw = "" then safeCommitP rootProps "PW" pw else rootProps
      let rootProps := if ¬ pb = "" then safeCommitP rootProps "PB" pb else rootProps
      let rootProps := if ¬ re = "" then setValueP rootProps "RE" re else rootProps
      let chain := lines.foldl ngfMoveLine []
      .ok (rootProps, chain)

/-- parseNgf from xyz2sgf.js. -/
def parseNgf (s : String) : Except JsErr Node :=
  match parseNgfRaw s with
  | .error e => .error e
  | .ok (props, chain) =>
    if chain = [] then .error .parserFail
    else .ok (buildTree props chain)

/-! ### Parser A: parseGib -/

/-- Leftmost-match scan: try the matcher at every suffix, left to right,
as `String.prototype.match` does with a non-global regex. -/
def findSome {α : Type} (f : List Char → Option α) : List Char → Option α
  | [] => f []
  | c :: rest =>
    match f (c :: rest) with
    | some r => some r
    | none => findSome f rest

/-- Match of `/LIT(\d+),/` anchored at the start of `l`: the literal, a
nonempty digit run (greedy, necessarily maximal since the next character
must be a comma), then a comma; yields the digit capture. -/
def litDigitsCommaAt (lit : List Char) (l : List Char) : Option (List Char) :=
  if lit.isPrefixOf l then
    let rest := l.drop lit.length
    let ds := rest.takeWhile Char.isDigit
    if ¬ ds = [] ∧ (rest.drop ds.length).head? = some ',' then some ds else none
  else none

/-- First match of `/LIT(\d+),/` in `s`, as the digit capture. -/
def litDigitsComma (lit : String) (s : String) : Option String :=
  (findSome (litDigitsCommaAt lit.data) s.data).map String.mk

/-- Match of `/C(\d\d\d\d):(\d\d):(\d\d)/` anchored at the start of `l`,
already joined with "-" as the GAMETAG date handler does. -/
def gibDateAt (l : List Char) : Option String :=
  match l with
  | 'C' :: r =>
    let y := r.take 4
    let r1 := r.drop 4
    if y.length = 4 ∧ y.all Char.isDigit then
      match r1 with
      | ':' :: r2 =>
        let mo := r2.take 2
        let r3 := r2.drop 2
        if mo.length = 2 ∧ mo.all Char.isDigit then
          match r3 with
          | ':' :: r4 =>
            let d := r4.take 2
            if d.length = 2 ∧ d.all Char.isDigit then
              some (String.mk y ++ "-" ++ String.mk mo ++ "-" ++ String.mk d)
            else none
          | _ => none
        else none
      | _ => none
    else none
  | _ => none

/-- First date match in a GAMETAG line. -/
def gibDate (s : String) : Option String := findSome gibDateAt s.data

/-- gibMakeResult from xyz2sgf.js; its arguments are parseInt results of
digit captures, hence genuine nonnegative integers. -/
def gibMakeResult (grlt zipsu : Int) : String :=
  if grlt = 3 then "B+R"
  else if grlt = 4 then "W+R"
  else if grlt = 7 then "B+T"
  else if grlt = 8 then "W+T"
  else if grlt = 0 then "B+" ++ jsNumToString (jdivQ (some zipsu) 10)
  else if grlt = 1 then "W+" ++ jsNumToString (jdivQ (some zipsu) 10)
  else ""

/-- gibGetResult from xyz2sgf.js, specialized to the `/LIT(\d+),/` shape
shared by all four regexes passed to it.  A digit capture always parses,
so the fallback arm is unreachable; returning "" there coincides with
gibMakeResult's own behavior on NaN in any case. -/
def gibGetResult (line : String) (grltLit zipsuLit : String) : String :=
  match litDigitsComma grltLit line with
  | none => ""
  | some g =>
    match litDigitsComma zipsuLit line with
    | none => ""
    | some z =>
      match jsParseInt g, jsParseInt z with
      | some grlt, some zipsu => gibMakeResult grlt zipsu
      | _, _ => ""

/-- parsePlayerName from xyz2sgf.js: splits "Name(Rank)", falling back to
the raw string with an empty rank. -/
def parsePlayerName (raw : String) : String × String :=
  let foo := jsSplit raw '('
  let nr : String × String :=
    if foo.length = 2 then
      let f1 := idx foo 1
      -- charAt(foo[1].length - 1): for the empty string JavaScript asks for
      -- index -1 and Nat subtraction asks for index 0; both give "".
      if jsCharAt f1 (f1.data.length - 1) = ")" then
        (jsTrim (idx foo 0), jsSlice f1 0 (-1))
      else ("", "")
    else ("", "")
  if ¬ nr.1 = "" then nr else (raw, "")

/-- Loop state of parseGib: root properties and the linear move chain (the
current node is the root exactly when the chain is empty). -/
structure GibState where
  props : PropMap
  chain : List (String × String)

/-- GAMEBLACKNAME handler of parseGib. -/
def gibBlackName (props : PropMap) (line : String) : PropMap :=
  if jsStartsWith line "\\[GAMEBLACKNAME=" ∧ jsEndsWith line "\\]" then
    let nr := parsePlayerName (jsSlice line 16 (-2))
    let props := if ¬ nr.1 = "" then safeCommitP props "PB" nr.1 else props
    if ¬ nr.2 = "" then safeCommitP props "BR" nr.2 else props
  else props

/-- GAMEWHITENAME handler of parseGib. -/
def gibWhiteName (props : PropMap) (line : String) : PropMap :=
  if jsStartsWith line "\\[GAMEWHITENAME=" ∧ jsEndsWith line "\\]" then
    let nr := parsePlayerName (jsSlice line 16 (-2))
    let props := if ¬ nr.1 = "" then safeCommitP props "PW" nr.1 else props
    if ¬ nr.2 = "" then safeCommitP props "WR" nr.2 else props
  else props

/-- The `if (!root.properties.has("RE")) { ... }` block shared by the
GAMEINFOMAIN and GAMETAG handlers of parseGib: stores a nonempty computed
result only when RE is not already present. -/
def gibResultIfAbsent (props : PropMap) (line grltLit zipsuLit : String) : PropMap :=
  if ¬ hasP props "RE" then
    let result := gibGetResult line grltLit zipsuLit
    if ¬ result = "" then setValueP props "RE" result else props
  else props

/-- The GONGJE komi block of the GAMEINFOMAIN handler: stores `value / 10`
only when KM is not already present and the komi is truthy (nonzero). -/
def gibInfoKomi (props : PropMap) (line : String) : PropMap :=
  if ¬ hasP props "KM" then
    match litDigitsComma "GONGJE:" line with
    | some ds =>
      let komi := jdivQ (jsParseInt ds) 10
      if jTruthy komi then setValueP props "KM" (jsNumToString komi) else props
    | none => props
  else props

/-- The date block of the GAMETAG handler: stores the reformatted date only
when DT is not already present. -/
def gibTagDate (props : PropMap) (line : String) : PropMap :=
  if ¬ hasP props "DT" then
    match gibDate line with
    | some date => setValueP props "DT" date
    | none => props
  else props

/-- The komi block of the GAMETAG handler: stores `value / 10` only when KM
is not already present (even when zero, unlike `gibInfoKomi`). -/
def gibTagKomi (props : PropMap) (line : String) : PropMap :=
  if ¬ hasP props "KM" then
    match litDigitsComma ",G" line with
    | some ds => setValueP props "KM" (jsNumToString (jdivQ (jsParseInt ds) 10))
    | none => props
  else props

/-- GAMEINFOMAIN handler of parseGib: result and komi, each only when not
already present; a zero komi is falsy and is not stored here. -/
def gibInfoMain (props : PropMap) (line : String) : PropMap :=
  if jsStartsWith line "\\[GAMEINFOMAIN=" then
    gibInfoKomi (gibResultIfAbsent props line "GRLT:" "ZIPSU:") line
  else props

/-- GAMETAG handler of parseGib: date, result and komi, each only when not
already present. -/
def gibGameTag (props : PropMap) (line : String) : PropMap :=
  if jsStartsWith line "\\[GAMETAG=" then
    gibTagKomi (gibResultIfAbsent (gibTagDate props line) line ",W" ",Z") line
  else props

/-- INI handler of parseGib: fails when a move node already exists, then
places handicap stones on the root for a handicap in `[2, 9]`. -/
def gibIni (st : GibState) (line : String) : Except JsErr GibState :=
  if jsSlice line 0 3 = "INI" then
    if ¬ st.chain = [] then .error .parserFail
    else
      let setup := jsSplitWsStr (jsTrim line)
      if ¬ jsTruthyStrOpt (setup.get? 3) then .ok st
      else
        let handicap := jsParseIntU (setup.get? 3)
        if jltI handicap 0 || jgtI handicap 9 then .error .parserFail
        else if jgeI handicap 2 then
          match addStones (setValueP st.props "HA" (jsIntToString handicap))
              (handicapPoints (some 19) handicap true) with
          | .error e => .error e
          | .ok props => .ok { st with props := props }
        else .ok st
  else .ok st

/-- STO handler of parseGib: one linear move node with a `+1` coordinate
offset; non-numeric coordinate fields become NaN, which slips past the
range check and is encoded as NUL characters, exactly as in JavaScript. -/
def gibSto (st : GibState) (line : String) : GibState :=
  if jsSlice line 0 3 = "STO" then
    let move := jsSplitWsStr (jsTrim line)
    let key := if move.get? 3 = some "1" then "B" else "W"
    if ¬ jsTruthyStrOpt (move.get? 4) then st
    else
      let x := jaddI (jsParseIntU (move.get? 4)) 1
      if ¬ jsTruthyStrOpt (move.get? 5) then st
      else
        let y := jaddI (jsParseIntU (move.get? 5)) 1
        match stringFromPointNum x y with
        | .ok value => { st with chain := st.chain ++ [(key, value)] }
        | .error _ => st   -- caught, continue
  else st

/-- One loop iteration of parseGib: the five independent `if` sections run
in source order on the trimmed line. -/
def gibStep (st : GibState) (rawLine : String) : Except JsErr GibState :=
  let line := jsTrim rawLine
  let props := gibBlackName st.props line
  let props := gibWhiteName props line
  let props := gibInfoMain props line
  let props := gibGameTag props line
  match gibIni { st with props := props } line with
  | .error e => .error e
  | .ok st1 => .ok (gibSto st1 line)

/-- Runs gibStep over the lines, stopping at the first error. -/
def gibRun : GibState → List String → Except JsErr GibState
  | st, [] => .ok st
  | st, l :: rest =>
    match gibStep st l with
    | .error e => .error e
    | .ok st1 => gibRun st1 rest

/-- parseGib up to (but not including) the final zero-children check. -/
def parseGibRaw (s : String) : Except JsErr GibState :=
  gibRun { props := [], chain := [] } (jsSplit s '\n')

/-- parseGib from xyz2sgf.js. -/
def parseGib (s : String) : Except JsErr Node :=
  match parseGibRaw s with
  | .error e => .error e
  | .ok st =>
    if st.chain = [] then .error .parserFail
    else .ok (buildTree st.props st.chain)

/-- First stored value list of a tag on the root of a parse result; used to
state the concrete evaluation theorems. -/
def rootProp (r : Except JsErr Node) (k : String) : Option (List String) :=
  match r with
  | .ok n => getP n.props k
  | .error _ => none

/-- The documented handicap-point count of the specification: no points
below handicap 2, the full handicap for odd board sizes, and at most the
first four points for even board sizes. -/
def docCount (b h : Nat) : Nat :=
  if h < 2 then 0 else if b % 2 = 0 then min h 4 else h

/-! ### Helper lemmas about the property map -/

theorem getP_setP_self (m : PropMap) (k : String) (v : List String) :
    getP (setP m k v) k = some v := by
  induction m with
  | nil => simp [setP, getP]
  | cons kv rest ih =>
    obtain ⟨k', v'⟩ := kv
    by_cases h : k' = k <;> simp [setP, getP, h, ih]

theorem getP_setP_ne (m : PropMap) (k k' : String) (v : List String)
    (h : ¬ k' = k) : getP (setP m k' v) k = getP m k := by
  induction m with
  | nil => simp [setP, getP, h]
  | cons kv rest ih =>
    obtain ⟨k0, v0⟩ := kv
    by_cases h0 : k0 = k' <;> simp [setP, getP, h0, h, ih]

theorem getP_delP_ne (m : PropMap) (k k' : String) (h : ¬ k' = k) :
    getP (delP m k') k = getP m k := by
  induction m with
  | nil => simp [delP, getP]
  | cons kv rest ih =>
    obtain ⟨k0, v0⟩ := kv
    by_cases h0 : k0 = k'
    · subst h0; simp [delP, getP, h]
    · simp [delP, getP, h0, ih]

theorem getP_eq_none_of_not_mem (m : PropMap) (k : String)
    (h : ¬ k ∈ m.map Prod.fst) : getP m k = none := by
  induction m with
  | nil => rfl
  | cons kv rest ih =>
    obtain ⟨k0, v0⟩ := kv
    simp only [List.map_cons, List.mem_cons] at h
    push_neg at h
    have h0 : ¬ k0 = k := fun hh => h.1 hh.symm
    simp [getP, h0, ih h.2]

theorem getP_delP_self (m : PropMap) (k : String)
    (h : (m.map Prod.fst).Nodup) : getP (delP m k) k = none := by
  induction m with
  | nil => rfl
  | cons kv rest ih =>
    obtain ⟨k0, v0⟩ := kv
    simp only [List.map_cons, List.nodup_cons] at h
    by_cases h0 : k0 = k
    · subst h0
      simp only [delP, if_pos rfl]
      exact getP_eq_none_of_not_mem rest k0 h.1
    · simp [delP, getP, h0, ih h.2]

theorem getP_setValueP_ne (m : PropMap) (k k' v : String) (h : ¬ k' = k) :
    getP (setValueP m k' v) k = getP m k :=
  getP_setP_ne m k k' [v] h

theorem getP_safeCommitP_ne (m : PropMap) (k k' v : String) (h : ¬ k' = k) :
    getP (safeCommitP m k' v) k = getP m k := by
  unfold safeCommitP
  by_cases hs : ¬ safeString v = "" <;>
    simp [hs, getP_setP_ne _ _ _ _ h, getP_delP_ne _ _ _ h]

theorem getP_addValueP_ne (m : PropMap) (k k' v : String) (h : ¬ k' = k) :
    getP (addValueP m k' v) k = getP m k := by
  unfold addValueP
  match hg : getP m k' with
  | none => simp [getP_setP_ne _ _ _ _ h]
  | some vs =>
    by_cases hv : v ∈ vs <;> simp [hv, getP_setP_ne _ _ _ _ h]

theorem addStones_getP_ne (pts : List (JsInt × JsInt)) :
    ∀ (m m' : PropMap) (k : String), ¬ k = "AB" →
      addStones m pts = .ok m' → getP m' k = getP m k := by
  induction pts with
  | nil =>
    intro m m' k _ hok
    simp only [addStones] at hok
    cases hok
    rfl
  | cons p rest ih =>
    intro m m' k hk hok
    obtain ⟨x, y⟩ := p
    simp only [addStones] at hok
    match hsp : stringFromPointNum x y with
    | .error e => rw [hsp] at hok; cases hok
    | .ok v =>
      rw [hsp] at hok
      rw [ih _ _ _ hk hok]
      exact getP_addValueP_ne _ _ _ _ (fun hh => hk hh.symm)

theorem safeString_ne_empty (s : String) (h : ¬ s = "") : ¬ safeString s = "" := by
  obtain ⟨data⟩ := s
  match data with
  | [] => exact absurd rfl h
  | c :: rest =>
    intro hc
    by_cases hesc : c = ']' ∨ c = '\\' <;>
      simp [safeString, hesc, String.ext_iff] at hc

/-! ### Claim C10: Node.safeCommit stores or deletes -/

/-- Claim C10: for every node property map with the key-uniqueness that a
JavaScript Map guarantees, every key and every value, safeCommit stores the
backslash-escaped value as the key's single value when the value is
non-empty (equivalently, when its escaped form is non-empty), and deletes
the key entirely when the value is the empty string, silently removing any
previously set property. -/
theorem claim10_safeCommit (m : PropMap) (k v : String)
    (hnd : (m.map Prod.fst).Nodup) :
    (¬ v = "" → getP (safeCommitP m k v) k = some [safeString v]) ∧
    (v = "" → getP (safeCommitP m k v) k = none) := by
  constructor
  · intro hv
    have hs := safeString_ne_empty v hv
    simp [safeCommitP, hs, getP_setP_self]
  · intro hv
    subst hv
    simp [safeCommitP, safeString, String.ext_iff, getP_delP_self m k hnd]

/-- Witness for C10 at a concrete map that already holds the key: the
non-empty branch stores the escaped value, the empty branch deletes the
previously set property. -/
theorem claim10_witness :
    getP (safeCommitP [("PB", ["old"])] "PB" "a]b") "PB" = some ["a\\]b"] ∧
    getP (safeCommitP [("PB", ["old"])] "PB" "") "PB" = none := by
  refine ⟨?_, ?_⟩
  · have h := (claim10_safeCommit [("PB", ["old"])] "PB" "a]b" (by decide)).1
      (by decide)
    simpa using h
  · exact (claim10_safeCommit [("PB", ["old"])] "PB" "" (by decide)).2 rfl

/-! ### Claim C1: parseUgf never leaves the null section -/

theorem ugfStep_fixed (st : UgfState) (h : st.sect = none) (l : String) :
    ugfStep st l = st := by
  simp [ugfStep, ugfBracketTry, ugfDispatch, h]

theorem foldl_ugfStep_fixed (ls : List String) :
    ∀ (st : UgfState), st.sect = none → ls.foldl ugfStep st = st := by
  induction ls with
  | nil => intro st _; rfl
  | cons l rest ih =>
    intro st h
    rw [List.foldl_cons, ugfStep_fixed st h l]
    exact ih st h

/-- Claim C1: the bracketed section-header check of parseUgf never matches
any line — `line.chatAt(0)` throws and the empty catch swallows it, and
even the matched name would only bind an inner shadowing constant — so the
outer section variable stays null, neither the `[HEADER]` nor the `[DATA]`
branch ever runs, no child node is ever created, and parseUgf throws
ParserFail on every input string. -/
theorem claim1_parseUgf_always_fails (s : String) :
    parseUgf s = .error .parserFail := by
  unfold parseUgf parseUgfRaw
  rw [foldl_ugfStep_fixed _ ugfInit rfl]
  rfl

/-! ### Claim C6: zero children means ParserFail, in all three parsers -/

/-- Claim C6: each of the three parsers, whenever its line loop completes
with zero child nodes accumulated under the root, throws ParserFail —
whatever root metadata was already captured. -/
theorem claim6_zero_children_fail (s : String) :
    (∀ pc, parseNgfRaw s = .ok pc → pc.2 = [] → parseNgf s = .error .parserFail) ∧
    (∀ st, parseGibRaw s = .ok st → st.chain = [] → parseGib s = .error .parserFail) ∧
    ((parseUgfRaw s).chain = [] → parseUgf s = .error .parserFail) := by
  refine ⟨?_, ?_, ?_⟩
  · intro pc hok hchain
    obtain ⟨props, chain⟩ := pc
    simp only at hchain
    unfold parseNgf
    rw [hok, hchain]
    rfl
  · intro st hok hchain
    unfold parseGib
    rw [hok]
    simp [hchain]
  · intro hchain
    unfold parseUgf
    simp [hchain]

/-- Witness for C6: the empty input runs each parser's loop to completion
with zero children, and each parser indeed fails with ParserFail. -/
theorem claim6_witness :
    parseNgf "" = .error .parserFail ∧
    parseGib "" = .error .parserFail ∧
    parseUgf "" = .error .parserFail := by
  refine ⟨?_, ?_, ?_⟩
  · exact (claim6_zero_children_fail "").1 ([("SZ", ["NaN"])], []) (by rfl) rfl
  · exact (claim6_zero_children_fail "").2.1 { props := [], chain := [] } (by rfl) rfl
  · exact (claim6_zero_children_fail "").2.2 (by rfl)

/-! ### Claim C9: the coordinate encoder -/

set_option maxRecDepth 4096 in
theorem char_ofNat_inj_on_codes :
    ∀ m : Nat, m < 26 → ∀ n : Nat, n < 26 →
      Char.ofNat (97 + m) = Char.ofNat (97 + n) → m = n := by decide

theorem uppercase_range_cond (x y : Int) :
    (jltI (some x) 1 || jgtI (some x) 26 || jltI (some y) 1 || jgtI (some y) 26) = true ↔
      (x < 1 ∨ 26 < x ∨ y < 1 ∨ 26 < y) := by
  simp only [jltI, jgtI, Bool.or_eq_true, decide_eq_true_eq]
  omega

/-- Claim C9: stringFromPoint throws its range error exactly when a
coordinate is outside `[1, 26]`; on `[1, 26] × [1, 26]` it is injective
(hence a bijection onto its image), with `(1, 1)` mapped to "aa" and
`(19, 19)` mapped to "ss". -/
theorem claim9_stringFromPoint :
    (∀ x y : Int, stringFromPoint x y = .error .valueError ↔
        (x < 1 ∨ 26 < x ∨ y < 1 ∨ 26 < y)) ∧
    (∀ x y x' y' : Int,
        1 ≤ x → x ≤ 26 → 1 ≤ y → y ≤ 26 →
        1 ≤ x' → x' ≤ 26 → 1 ≤ y' → y' ≤ 26 →
        stringFromPoint x y = stringFromPoint x' y' → x = x' ∧ y = y') ∧
    stringFromPoint 1 1 = .ok "aa" ∧ stringFromPoint 19 19 = .ok "ss" := by
  have hchar : ∀ a b : Int, 1 ≤ a → a ≤ 26 → 1 ≤ b → b ≤ 26 →
      jsFromCharCode (jaddI (some a) 96) = jsFromCharCode (jaddI (some b) 96) →
      a = b := by
    intro a b ha1 ha2 hb1 hb2 h
    simp only [jsFromCharCode, jaddI, Option.map_some'] at h
    rw [Int.emod_eq_of_lt (by omega) (by omega),
        Int.emod_eq_of_lt (by omega) (by omega)] at h
    have hma : 97 + ((a + 96).toNat - 97) = (a + 96).toNat := by omega
    have hmb : 97 + ((b + 96).toNat - 97) = (b + 96).toNat := by omega
    rw [← hma, ← hmb] at h
    have := char_ofNat_inj_on_codes ((a + 96).toNat - 97) (by omega)
      ((b + 96).toNat - 97) (by omega) h
    omega
  refine ⟨?_, ?_, by rfl, by rfl⟩
  · intro x y
    unfold stringFromPoint stringFromPointNum
    by_cases hc : x < 1 ∨ 26 < x ∨ y < 1 ∨ 26 < y
    · rw [if_pos ((uppercase_range_cond x y).mpr hc)]
      simp [hc]
    · rw [if_neg (fun hh => hc ((uppercase_range_cond x y).mp hh))]
      simp [hc]
  · intro x y x' y' hx1 hx2 hy1 hy2 hx1' hx2' hy1' hy2' h
    unfold stringFromPoint stringFromPointNum at h
    rw [if_neg (fun hh => by
          have := (uppercase_range_cond x y).mp hh; omega),
        if_neg (fun hh => by
          have := (uppercase_range_cond x' y').mp hh; omega)] at h
    injection h with h1
    have hd : [jsFromCharCode (jaddI (some x) 96), jsFromCharCode (jaddI (some y) 96)] =
        [jsFromCharCode (jaddI (some x') 96), jsFromCharCode (jaddI (some y') 96)] :=
      congrArg String.data h1
    simp only [List.cons.injEq, and_true] at hd
    exact ⟨hchar x x' hx1 hx2 hx1' hx2' hd.1, hchar y y' hy1 hy2 hy1' hy2' hd.2⟩

/-- Witness for C9: the injectivity part applied at the concrete corner
points, with every range hypothesis discharged there. -/
theorem claim9_witness : (3 : Int) = 3 ∧ (4 : Int) = 4 :=
  claim9_stringFromPoint.2.1 3 4 3 4 (by decide) (by decide) (by decide)
    (by decide) (by decide) (by decide) (by decide) (by decide) rfl

/-! ### Claim C2: handicap point counts and bounds -/

/-- Counterexample to C2 as stated: on board size 5 (where `1 + d`,
`boardsize - d` and the midpoint all equal 3) handicap 2 produces only one
distinct coordinate pair, not the documented two. -/
theorem claim2_counterexample :
    ¬ ((handicapPoints (some 5) (some 2) false).dedup.length = docCount 5 2) := by
  decide

/-- Claim C2 as amended: for every board size in `[4, 25]` other than the
degenerate size 5, every handicap in `[0, 9]` and either layout variant,
the number of distinct returned coordinate pairs equals the documented
count (the full handicap on odd boards, at most the first four points on
even boards, nothing below handicap 2); and for every board size in
`[4, 25]` — including 5 — every returned point lies within the board. -/
theorem claim2_handicap_counts :
    (∀ b : Nat, b < 26 → 4 ≤ b → ¬ b = 5 → ∀ h : Nat, h < 10 → ∀ t : Bool,
        (handicapPoints (some (b : Int)) (some (h : Int)) t).dedup.length = docCount b h) ∧
    (∀ b : Nat, b < 26 → 4 ≤ b → ∀ h : Nat, h < 10 → ∀ t : Bool,
        (handicapPoints (some (b : Int)) (some (h : Int)) t).all
          (fun pr => match pr with
            | (some x, some y) =>
                decide (1 ≤ x) && decide (x ≤ (b : Int)) &&
                decide (1 ≤ y) && decide (y ≤ (b : Int))
            | _ => false) = true) := by
  constructor
  · decide
  · decide

/-- Witness for C2 at board size 19, handicap 9: nine distinct points, all
on the board. -/
theorem claim2_witness :
    (handicapPoints (some 19) (some 9) false).dedup.length = docCount 19 9 ∧
    (handicapPoints (some 19) (some 9) false).all
      (fun pr => match pr with
        | (some x, some y) =>
            decide (1 ≤ x) && decide (x ≤ (19 : Int)) &&
            decide (1 ≤ y) && decide (y ≤ (19 : Int))
        | _ => false) = true :=
  ⟨claim2_handicap_counts.1 19 (by decide) (by decide) (by decide) 9 (by decide) false,
   claim2_handicap_counts.2 19 (by decide) (by decide) 9 (by decide) false⟩

/-! ### Claim C5: the normalizer -/

/-- Claim C5: for every tree handed to normalization, the result (when it
succeeds) carries FF = 4, GM = 1 and CA = "UTF-8" on the root; a tree
without SZ gets SZ = 19; and BadBoardSize is thrown exactly when the final
board size — the parseInt of the stored SZ value, 19 when SZ was absent —
is a number outside `[1, 19]` (an unparsable SZ yields NaN, which fails
both bound comparisons and throws nothing, faithfully to the source). -/
theorem claim5_normalize (root : Node) :
    (normalize root = .error .badBoardSize ↔
      ∃ n : Int, normSize root = some n ∧ (19 < n ∨ n < 1)) ∧
    (∀ r, normalize root = .ok r →
      getP r.props "FF" = some ["4"] ∧ getP r.props "GM" = some ["1"] ∧
      getP r.props "CA" = some ["UTF-8"] ∧
      (getP root.props "SZ" = none → getP r.props "SZ" = some ["19"])) := by
  obtain ⟨props0, children⟩ := root
  have hprops : (Node.mk props0 children).props = props0 := rfl
  set props3 := setValueP (setValueP (setValueP props0 "FF" "4") "GM" "1") "CA" "UTF-8"
    with hp3def
  have hp3sz : getP props3 "SZ" = getP props0 "SZ" := by
    rw [hp3def]
    unfold setValueP
    rw [getP_setP_ne _ _ _ _ (by decide), getP_setP_ne _ _ _ _ (by decide),
        getP_setP_ne _ _ _ _ (by decide)]
  have hp3ff : getP props3 "FF" = some ["4"] := by
    rw [hp3def]
    unfold setValueP
    rw [getP_setP_ne _ _ _ _ (by decide), getP_setP_ne _ _ _ _ (by decide),
        getP_setP_self]
  have hp3gm : getP props3 "GM" = some ["1"] := by
    rw [hp3def]
    unfold setValueP
    rw [getP_setP_ne _ _ _ _ (by decide), getP_setP_self]
  have hp3ca : getP props3 "CA" = some ["UTF-8"] := by
    rw [hp3def]
    unfold setValueP
    rw [getP_setP_self]
  have hnorm : normalize (Node.mk props0 children) =
      (let sp : JsInt × PropMap :=
        match getP props3 "SZ" with
        | some vs => (jsParseIntU (vs.get? 0), props3)
        | none => (some 19, setValueP props3 "SZ" "19")
      if jgtI sp.1 19 || jltI sp.1 1 then .error .badBoardSize
      else .ok (Node.mk sp.2 children)) := rfl
  have hsize : normSize (Node.mk props0 children) =
      (match getP props0 "SZ" with
       | some vs => jsParseIntU (vs.get? 0)
       | none => some 19) := rfl
  rcases hsz : getP props0 "SZ" with _ | vs
  · rw [hsz] at hsize
    rw [hp3sz, hsz] at hnorm
    simp only at hnorm
    constructor
    · rw [hnorm, hsize]
      constructor
      · intro h
        rw [if_neg (by decide)] at h
        cases h
      · rintro ⟨n, hn, hb⟩
        cases hn
        omega
    · intro r hr
      rw [hnorm, if_neg (by decide)] at hr
      cases hr
      refine ⟨?_, ?_, ?_, fun _ => ?_⟩
      · show getP (setValueP props3 "SZ" "19") "FF" = some ["4"]
        unfold setValueP
        rw [getP_setP_ne _ _ _ _ (by decide)]
        exact hp3ff
      · show getP (setValueP props3 "SZ" "19") "GM" = some ["1"]
        unfold setValueP
        rw [getP_setP_ne _ _ _ _ (by decide)]
        exact hp3gm
      · show getP (setValueP props3 "SZ" "19") "CA" = some ["UTF-8"]
        unfold setValueP
        rw [getP_setP_ne _ _ _ _ (by decide)]
        exact hp3ca
      · show getP (setValueP props3 "SZ" "19") "SZ" = some ["19"]
        exact getP_setP_self _ _ _
  · rw [hsz] at hsize
    simp only at hsize
    rw [hp3sz, hsz] at hnorm
    simp only at hnorm
    rcases hval : jsParseIntU (vs.get? 0) with _ | n
    · rw [hval] at hnorm hsize
      constructor
      · rw [hnorm, hsize]
        constructor
        · intro h
          rw [if_neg (by decide)] at h
          cases h
        · rintro ⟨n, hn, _⟩
          cases hn
      · intro r hr
        rw [hnorm, if_neg (by decide)] at hr
        cases hr
        exact ⟨hp3ff, hp3gm, hp3ca, fun hc => by rw [hprops, hsz] at hc; cases hc⟩
    · rw [hval] at hnorm hsize
      by_cases hb : 19 < n ∨ n < 1
      · have hcond : (jgtI (some n) 19 || jltI (some n) 1) = true := by
          simp only [jgtI, jltI, Bool.or_eq_true, decide_eq_true_eq]
          omega
        constructor
        · rw [hnorm, hsize, if_pos hcond]
          exact ⟨fun _ => ⟨n, rfl, hb⟩, fun _ => rfl⟩
        · intro r hr
          rw [hnorm, if_pos hcond] at hr
          cases hr
      · have hcond : ¬ ((jgtI (some n) 19 || jltI (some n) 1) = true) := by
          simp only [jgtI, jltI, Bool.or_eq_true, decide_eq_true_eq]
          omega
        constructor
        · rw [hnorm, hsize, if_neg hcond]
          constructor
          · intro h
            cases h
          · rintro ⟨n', hn', hb'⟩
            cases hn'
            exact absurd hb' hb
        · intro r hr
          rw [hnorm, if_neg hcond] at hr
          cases hr
          exact ⟨hp3ff, hp3gm, hp3ca, fun hc => by rw [hprops, hsz] at hc; cases hc⟩

/-- Witness for C5: normalizing the empty root succeeds and carries the
forced tags plus the defaulted board size. -/
theorem claim5_witness :
    getP (Node.mk [("FF", ["4"]), ("GM", ["1"]), ("CA", ["UTF-8"]), ("SZ", ["19"])] []).props
      "FF" = some ["4"] ∧
    getP (Node.mk [("FF", ["4"]), ("GM", ["1"]), ("CA", ["UTF-8"]), ("SZ", ["19"])] []).props
      "GM" = some ["1"] ∧
    getP (Node.mk [("FF", ["4"]), ("GM", ["1"]), ("CA", ["UTF-8"]), ("SZ", ["19"])] []).props
      "CA" = some ["UTF-8"] ∧
    (getP (Node.mk ([] : PropMap) ([] : List Node)).props "SZ" = none →
      getP (Node.mk [("FF", ["4"]), ("GM", ["1"]), ("CA", ["UTF-8"]), ("SZ", ["19"])] []).props
        "SZ" = some ["19"]) :=
  (claim5_normalize (Node.mk [] [])).2
    (Node.mk [("FF", ["4"]), ("GM", ["1"]), ("CA", ["UTF-8"]), ("SZ", ["19"])] []) (by rfl)

/-! ### Claim C7: the serializer -/

theorem writeTreeToks_eq (n : Node) :
    writeTreeToks n = Tok.lp :: chainToks n ++ [Tok.close] := by
  rw [writeTreeToks]

theorem chainToks_eq (props : PropMap) (children : List Node) :
    chainToks (Node.mk props children) =
      Tok.semi :: propToks props ++
        (match children with
         | [] => []
         | [c] => chainToks c
         | c1 :: c2 :: rest => groupsToks (c1 :: c2 :: rest)) := by
  rw [chainToks.eq_def]

theorem groupsToks_nil : groupsToks [] = [] := by
  rw [groupsToks]

theorem groupsToks_cons (c : Node) (rest : List Node) :
    groupsToks (c :: rest) = writeTreeToks c ++ groupsToks rest := by
  rw [groupsToks]

theorem propToks_count_eq_zero (m : PropMap) (t : Tok)
    (hk : ∀ k, ¬ t = Tok.key k) (hv : ∀ v, ¬ t = Tok.val v) :
    (propToks m).count t = 0 := by
  rw [List.count_eq_zero]
  intro ht
  simp only [propToks, List.mem_flatMap, List.mem_cons, List.mem_map] at ht
  obtain ⟨kv, _, hin⟩ := ht
  rcases hin with h | ⟨v, _, h⟩
  · exact hk kv.1 h
  · exact hv v h.symm

theorem chainToks_mkChain_counts (rest : List PropMap) :
    ∀ p : PropMap,
      (chainToks (mkChain p rest)).count Tok.lp = 0 ∧
      (chainToks (mkChain p rest)).count Tok.semi = rest.length + 1 ∧
      (chainToks (mkChain p rest)).count Tok.close = 0 := by
  induction rest with
  | nil =>
    intro p
    rw [show mkChain p [] = Node.mk p [] from rfl, chainToks_eq]
    simp only [List.count_cons, List.count_append, List.count_nil,
      propToks_count_eq_zero p Tok.lp (by intro k h; cases h) (by intro v h; cases h),
      propToks_count_eq_zero p Tok.semi (by intro k h; cases h) (by intro v h; cases h),
      propToks_count_eq_zero p Tok.close (by intro k h; cases h) (by intro v h; cases h)]
    refine ⟨by decide, by decide, by decide⟩
  | cons q rest ih =>
    intro p
    rw [show mkChain p (q :: rest) = Node.mk p [mkChain q rest] from rfl, chainToks_eq]
    simp only [List.count_cons, List.count_append, List.count_nil,
      propToks_count_eq_zero p Tok.lp (by intro k h; cases h) (by intro v h; cases h),
      propToks_count_eq_zero p Tok.semi (by intro k h; cases h) (by intro v h; cases h),
      propToks_count_eq_zero p Tok.close (by intro k h; cases h) (by intro v h; cases h)]
    obtain ⟨h1, h2, h3⟩ := ih q
    refine ⟨by simp [h1], by simp [h2, List.length_cons]; omega, by simp [h3]⟩

theorem chainToks_balanced_fuel :
    ∀ fuel : Nat, ∀ n : Node, sizeOf n ≤ fuel →
      (chainToks n).count Tok.lp = (chainToks n).count Tok.close := by
  intro fuel
  induction fuel with
  | zero =>
    intro n h
    obtain ⟨p, c⟩ := n
    simp only [Node.mk.sizeOf_spec] at h
    omega
  | succ fuel ih =>
    intro n h
    obtain ⟨props, children⟩ := n
    simp only [Node.mk.sizeOf_spec] at h
    have hsz : sizeOf children ≤ fuel := by omega
    rw [chainToks_eq]
    have hp := fun t hk hv => propToks_count_eq_zero props t hk hv
    match children with
    | [] =>
      simp [List.count_cons, List.count_append,
        hp Tok.lp (by intro k hh; cases hh) (by intro v hh; cases hh),
        hp Tok.close (by intro k hh; cases hh) (by intro v hh; cases hh)]
    | [c] =>
      have hc : sizeOf c ≤ fuel := by
        simp only [List.cons.sizeOf_spec, List.nil.sizeOf_spec] at hsz
        omega
      simp [List.count_cons, List.count_append,
        hp Tok.lp (by intro k hh; cases hh) (by intro v hh; cases hh),
        hp Tok.close (by intro k hh; cases hh) (by intro v hh; cases hh),
        ih c hc]
    | c1 :: c2 :: rest =>
      have hmem : ∀ c ∈ c1 :: c2 :: rest,
          (chainToks c).count Tok.lp = (chainToks c).count Tok.close := by
        intro c hc
        have hlt : sizeOf c < sizeOf (c1 :: c2 :: rest) := List.sizeOf_lt_of_mem hc
        exact ih c (by omega)
      have aux : ∀ l : List Node,
          (∀ c ∈ l, (chainToks c).count Tok.lp = (chainToks c).count Tok.close) →
          (groupsToks l).count Tok.lp = (groupsToks l).count Tok.close := by
        intro l
        induction l with
        | nil => intro _; simp [groupsToks_nil]
        | cons c rest ihl =>
          intro hl
          rw [groupsToks_cons, writeTreeToks_eq]
          simp only [List.count_append, List.count_cons, List.count_nil]
          have h1 := hl c (by simp)
          have h2 := ihl (fun c hc => hl c (by simp [hc]))
          simp [h1, h2]
      simp [List.count_cons, List.count_append,
        hp Tok.lp (by intro k hh; cases hh) (by intro v hh; cases hh),
        hp Tok.close (by intro k hh; cases hh) (by intro v hh; cases hh),
        aux _ hmem]

theorem writeTreeToks_balanced (n : Node) :
    (writeTreeToks n).count Tok.lp = (writeTreeToks n).count Tok.close := by
  rw [writeTreeToks_eq]
  have h := chainToks_balanced_fuel (sizeOf n) n le_rfl
  simp [List.count_cons, List.count_append, h]

theorem groupsToks_eq_flatten (l : List Node) :
    groupsToks l = (l.map writeTreeToks).flatten := by
  induction l with
  | nil => rw [groupsToks_nil]; rfl
  | cons c rest ih => rw [groupsToks_cons, ih]; rfl

/-- Claim C7: a single chain of N nodes serializes as one opening token, N
node statements and one closing token with no nested group anywhere, and a
node with k ≥ 2 children emits its statement followed by exactly the k
recursively serialized, balanced (independently closed) child groups and
nothing else before its own close — the loop breaks instead of descending
further. -/
theorem claim7_serializer :
    (∀ (p : PropMap) (rest : List PropMap),
        (writeTreeToks (mkChain p rest)).count Tok.lp = 1 ∧
        (writeTreeToks (mkChain p rest)).count Tok.semi = rest.length + 1 ∧
        (writeTreeToks (mkChain p rest)).count Tok.close = 1) ∧
    (∀ (props : PropMap) (c1 c2 : Node) (cs : List Node),
        writeTreeToks (Node.mk props (c1 :: c2 :: cs)) =
          Tok.lp :: chainToks (Node.mk props (c1 :: c2 :: cs)) ++ [Tok.close] ∧
        chainToks (Node.mk props (c1 :: c2 :: cs)) =
          Tok.semi :: propToks props ++ groupsToks (c1 :: c2 :: cs) ∧
        groupsToks (c1 :: c2 :: cs) = ((c1 :: c2 :: cs).map writeTreeToks).flatten ∧
        (∀ c ∈ c1 :: c2 :: cs,
          (writeTreeToks c).count Tok.lp = (writeTreeToks c).count Tok.close ∧
          (writeTreeToks c).head? = some Tok.lp ∧
          (writeTreeToks c).getLast? = some Tok.close)) := by
  constructor
  · intro p rest
    obtain ⟨h1, h2, h3⟩ := chainToks_mkChain_counts rest p
    rw [writeTreeToks_eq]
    refine ⟨by simp [List.count_cons, List.count_append, h1],
            by simp [List.count_cons, List.count_append, h2],
            by simp [List.count_cons, List.count_append, h3]⟩
  · intro props c1 c2 cs
    refine ⟨writeTreeToks_eq _, by rw [chainToks_eq], groupsToks_eq_flatten _, ?_⟩
    intro c _
    refine ⟨writeTreeToks_balanced c, ?_, ?_⟩
    · rw [writeTreeToks_eq]
      rfl
    · rw [writeTreeToks_eq,
        show Tok.lp :: chainToks c ++ [Tok.close] =
          (Tok.lp :: chainToks c) ++ [Tok.close] from rfl,
        List.getLast?_concat]

/-- Witness for C7: the nested-group clause applied at a node with two
concrete children, with the membership hypothesis discharged for the first
child. -/
theorem claim7_witness :
    (writeTreeToks (Node.mk [] [])).count Tok.lp =
      (writeTreeToks (Node.mk [] [])).count Tok.close ∧
    (writeTreeToks (Node.mk [] [])).head? = some Tok.lp ∧
    (writeTreeToks (Node.mk [] [])).getLast? = some Tok.close :=
  (claim7_serializer.2 [("B", ["aa"])] (Node.mk [] []) (Node.mk [("W", ["bb"])] []) []).2.2.2
    (Node.mk [] []) (by simp)

/-! ### Claim C8: parseGib metadata assignment discipline -/

theorem gibBlackName_getP_ne (props : PropMap) (line : String) (k : String)
    (h1 : ¬ k = "PB") (h2 : ¬ k = "BR") :
    getP (gibBlackName props line) k = getP props k := by
  simp only [gibBlackName]
  split
  · split
    · rw [getP_safeCommitP_ne _ _ _ _ (fun hh => h2 hh.symm)]
      split
      · rw [getP_safeCommitP_ne _ _ _ _ (fun hh => h1 hh.symm)]
      · rfl
    · split
      · rw [getP_safeCommitP_ne _ _ _ _ (fun hh => h1 hh.symm)]
      · rfl
  · rfl

theorem gibWhiteName_getP_ne (props : PropMap) (line : String) (k : String)
    (h1 : ¬ k = "PW") (h2 : ¬ k = "WR") :
    getP (gibWhiteName props line) k = getP props k := by
  simp only [gibWhiteName]
  split
  · split
    · rw [getP_safeCommitP_ne _ _ _ _ (fun hh => h2 hh.symm)]
      split
      · rw [getP_safeCommitP_ne _ _ _ _ (fun hh => h1 hh.symm)]
      · rfl
    · split
      · rw [getP_safeCommitP_ne _ _ _ _ (fun hh => h1 hh.symm)]
      · rfl
  · rfl

theorem gibResultIfAbsent_pres (props : PropMap) (line a b : String)
    (k : String) (v : List String) (h : getP props k = some v) :
    getP (gibResultIfAbsent props line a b) k = some v := by
  by_cases hk : k = "RE"
  · subst hk
    simp only [gibResultIfAbsent]
    rw [if_neg (by simp [hasP, h])]
    exact h
  · simp only [gibResultIfAbsent]
    split
    · split
      · rw [getP_setValueP_ne _ _ _ _ (fun hh => hk hh.symm)]
        exact h
      · exact h
    · exact h

theorem gibInfoKomi_pres (props : PropMap) (line : String)
    (k : String) (v : List String) (h : getP props k = some v) :
    getP (gibInfoKomi props line) k = some v := by
  by_cases hk : k = "KM"
  · subst hk
    simp only [gibInfoKomi]
    rw [if_neg (by simp [hasP, h])]
    exact h
  · simp only [gibInfoKomi]
    split
    · split
      · split
        · rw [getP_setValueP_ne _ _ _ _ (fun hh => hk hh.symm)]
          exact h
        · exact h
      · exact h
    · exact h

theorem gibTagDate_pres (props : PropMap) (line : String)
    (k : String) (v : List String) (h : getP props k = some v) :
    getP (gibTagDate props line) k = some v := by
  by_cases hk : k = "DT"
  · subst hk
    simp only [gibTagDate]
    rw [if_neg (by simp [hasP, h])]
    exact h
  · simp only [gibTagDate]
    split
    · split
      · rw [getP_setValueP_ne _ _ _ _ (fun hh => hk hh.symm)]
        exact h
      · exact h
    · exact h

theorem gibTagKomi_pres (props : PropMap) (line : String)
    (k : String) (v : List String) (h : getP props k = some v) :
    getP (gibTagKomi props line) k = some v := by
  by_cases hk : k = "KM"
  · subst hk
    simp only [gibTagKomi]
    rw [if_neg (by simp [hasP, h])]
    exact h
  · simp only [gibTagKomi]
    split
    · split
      · rw [getP_setValueP_ne _ _ _ _ (fun hh => hk hh.symm)]
        exact h
      · exact h
    · exact h

theorem gibInfoMain_pres (props : PropMap) (line : String)
    (k : String) (v : List String) (h : getP props k = some v) :
    getP (gibInfoMain props line) k = some v := by
  simp only [gibInfoMain]
  split
  · exact gibInfoKomi_pres _ _ _ _ (gibResultIfAbsent_pres _ _ _ _ _ _ h)
  · exact h

theorem gibGameTag_pres (props : PropMap) (line : String)
    (k : String) (v : List String) (h : getP props k = some v) :
    getP (gibGameTag props line) k = some v := by
  simp only [gibGameTag]
  split
  · exact gibTagKomi_pres _ _ _ _
      (gibResultIfAbsent_pres _ _ _ _ _ _ (gibTagDate_pres _ _ _ _ h))
  · exact h

theorem gibIni_getP_ne (st : GibState) (line : String) (st' : GibState)
    (k : String) (h1 : ¬ k = "HA") (h2 : ¬ k = "AB")
    (hok : gibIni st line = .ok st') : getP st'.props k = getP st.props k := by
  simp only [gibIni] at hok
  split at hok
  · split at hok
    · cases hok
    · split at hok
      · cases hok
        rfl
      · split at hok
        · cases hok
        · split at hok
          · split at hok
            · cases hok
            · rename_i props hstones
              cases hok
              show getP props k = getP st.props k
              rw [addStones_getP_ne _ _ _ _ h2 hstones,
                  getP_setValueP_ne _ _ _ _ (fun hh => h1 hh.symm)]
          · cases hok
            rfl
  · cases hok
    rfl

theorem gibSto_props (st : GibState) (line : String) :
    (gibSto st line).props = st.props := by
  simp only [gibSto]
  split
  · split
    · rfl
    · split
      · rfl
      · split
        · rfl
        · rfl
  · rfl

theorem gibBlackName_sets_name (props : PropMap) (line : String)
    (hstart : jsStartsWith line "\\[GAMEBLACKNAME=" = true)
    (hend : jsEndsWith line "\\]" = true)
    (hname : ¬ (parsePlayerName (jsSlice line 16 (-2))).1 = "") :
    getP (gibBlackName props line) "PB" =
      some [safeString (parsePlayerName (jsSlice line 16 (-2))).1] := by
  simp only [gibBlackName]
  rw [if_pos ⟨hstart, hend⟩, if_pos hname]
  split
  · rw [getP_safeCommitP_ne _ _ _ _ (by decide)]
    simp only [safeCommitP]
    rw [if_pos (safeString_ne_empty _ hname)]
    exact getP_setP_self _ _ _
  · simp only [safeCommitP]
    rw [if_pos (safeString_ne_empty _ hname)]
    exact getP_setP_self _ _ _

theorem gibBlackName_sets_rank (props : PropMap) (line : String)
    (hstart : jsStartsWith line "\\[GAMEBLACKNAME=" = true)
    (hend : jsEndsWith line "\\]" = true)
    (hrank : ¬ (parsePlayerName (jsSlice line 16 (-2))).2 = "") :
    getP (gibBlackName props line) "BR" =
      some [safeString (parsePlayerName (jsSlice line 16 (-2))).2] := by
  simp only [gibBlackName]
  rw [if_pos ⟨hstart, hend⟩, if_pos hrank]
  simp only [safeCommitP]
  rw [if_pos (safeString_ne_empty _ hrank)]
  exact getP_setP_self _ _ _

theorem gibBlackName_rank_pres (props : PropMap) (line : String) (v : List String)
    (hrank : (parsePlayerName (jsSlice line 16 (-2))).2 = "")
    (h : getP props "BR" = some v) :
    getP (gibBlackName props line) "BR" = some v := by
  simp only [gibBlackName]
  split
  · -- split has already discharged the rank test using hrank
    split
    · rw [getP_safeCommitP_ne _ _ _ _ (by decide)]
      exact h
    · exact h
  · exact h

theorem gibWhiteName_sets_name (props : PropMap) (line : String)
    (hstart : jsStartsWith line "\\[GAMEWHITENAME=" = true)
    (hend : jsEndsWith line "\\]" = true)
    (hname : ¬ (parsePlayerName (jsSlice line 16 (-2))).1 = "") :
    getP (gibWhiteName props line) "PW" =
      some [safeString (parsePlayerName (jsSlice line 16 (-2))).1] := by
  simp only [gibWhiteName]
  rw [if_pos ⟨hstart, hend⟩, if_pos hname]
  split
  · rw [getP_safeCommitP_ne _ _ _ _ (by decide)]
    simp only [safeCommitP]
    rw [if_pos (safeString_ne_empty _ hname)]
    exact getP_setP_self _ _ _
  · simp only [safeCommitP]
    rw [if_pos (safeString_ne_empty _ hname)]
    exact getP_setP_self _ _ _

theorem gibWhiteName_sets_rank (props : PropMap) (line : String)
    (hstart : jsStartsWith line "\\[GAMEWHITENAME=" = true)
    (hend : jsEndsWith line "\\]" = true)
    (hrank : ¬ (parsePlayerName (jsSlice line 16 (-2))).2 = "") :
    getP (gibWhiteName props line) "WR" =
      some [safeString (parsePlayerName (jsSlice line 16 (-2))).2] := by
  simp only [gibWhiteName]
  rw [if_pos ⟨hstart, hend⟩, if_pos hrank]
  simp only [safeCommitP]
  rw [if_pos (safeString_ne_empty _ hrank)]
  exact getP_setP_self _ _ _

theorem gibWhiteName_rank_pres (props : PropMap) (line : String) (v : List String)
    (hrank : (parsePlayerName (jsSlice line 16 (-2))).2 = "")
    (h : getP props "WR" = some v) :
    getP (gibWhiteName props line) "WR" = some v := by
  simp only [gibWhiteName]
  split
  · -- split has already discharged the rank test using hrank
    split
    · rw [getP_safeCommitP_ne _ _ _ _ (by decide)]
      exact h
    · exact h
  · exact h

/-- Carries a key-value binding present after the two name handlers through
the remaining stages of one gibStep iteration (which only ever set RE, KM,
DT guarded by absence, and HA/AB in the INI branch). -/
theorem gibStep_carries (st st' : GibState) (rawLine k : String) (v : List String)
    (h1 : ¬ k = "HA") (h2 : ¬ k = "AB")
    (hok : gibStep st rawLine = .ok st')
    (h : getP (gibWhiteName (gibBlackName st.props (jsTrim rawLine)) (jsTrim rawLine)) k
        = some v) :
    getP st'.props k = some v := by
  simp only [gibStep] at hok
  have h3 := gibInfoMain_pres _ (jsTrim rawLine) k v h
  have h4 := gibGameTag_pres _ (jsTrim rawLine) k v h3
  match hini : gibIni
      { st with props :=
          gibGameTag (gibInfoMain (gibWhiteName (gibBlackName st.props (jsTrim rawLine))
            (jsTrim rawLine)) (jsTrim rawLine)) (jsTrim rawLine) }
      (jsTrim rawLine) with
  | .error e => rw [hini] at hok; cases hok
  | .ok st1 =>
    rw [hini] at hok
    cases hok
    rw [gibSto_props]
    rw [gibIni_getP_ne _ _ _ k h1 h2 hini]
    exact h4

/-- Counterexample to C8 as stated: two GAMEBLACKNAME lines both assign the
black player's name, and the parse keeps the second one — the first
successful assignment does not win for player names. -/
theorem claim8_counterexample :
    rootProp (parseGib "\\[GAMEBLACKNAME=Alice\\]\n\\[GAMEBLACKNAME=Bob\\]\nSTO 0 2 1 3 3")
      "PB" = some ["Bob"] ∧
    ¬ rootProp (parseGib "\\[GAMEBLACKNAME=Alice\\]\n\\[GAMEBLACKNAME=Bob\\]\nSTO 0 2 1 3 3")
      "PB" = some ["Alice"] := by
  constructor
  · rfl
  · decide

/-- Claim C8 as amended: in parseGib, the first successful assignment wins
for the result, komi and date fields — one line of the loop never changes
an already-present RE, KM or DT value — while the name handlers commit
unguarded: a GAMEBLACKNAME (resp. GAMEWHITENAME) line whose parsed name is
nonempty overwrites PB (resp. PW) regardless of any earlier value, and one
whose parsed rank is nonempty likewise overwrites BR (resp. WR), so for
each of those four fields the last line that successfully assigns that
particular field wins; a name line carrying no rank leaves an earlier rank
untouched. -/
theorem claim8_assignment_discipline :
    (∀ (st st' : GibState) (rawLine k : String) (v : List String),
        (k = "RE" ∨ k = "KM" ∨ k = "DT") →
        gibStep st rawLine = .ok st' →
        getP st.props k = some v →
        getP st'.props k = some v) ∧
    (∀ (st st' : GibState) (rawLine : String),
        jsStartsWith (jsTrim rawLine) "\\[GAMEBLACKNAME=" = true →
        jsEndsWith (jsTrim rawLine) "\\]" = true →
        ¬ (parsePlayerName (jsSlice (jsTrim rawLine) 16 (-2))).1 = "" →
        gibStep st rawLine = .ok st' →
        getP st'.props "PB" =
          some [safeString (parsePlayerName (jsSlice (jsTrim rawLine) 16 (-2))).1]) ∧
    (∀ (st st' : GibState) (rawLine : String),
        jsStartsWith (jsTrim rawLine) "\\[GAMEBLACKNAME=" = true →
        jsEndsWith (jsTrim rawLine) "\\]" = true →
        ¬ (parsePlayerName (jsSlice (jsTrim rawLine) 16 (-2))).2 = "" →
        gibStep st rawLine = .ok st' →
        getP st'.props "BR" =
          some [safeString (parsePlayerName (jsSlice (jsTrim rawLine) 16 (-2))).2]) ∧
    (∀ (st st' : GibState) (rawLine : String) (v : List String),
        jsStartsWith (jsTrim rawLine) "\\[GAMEBLACKNAME=" = true →
        jsEndsWith (jsTrim rawLine) "\\]" = true →
        (parsePlayerName (jsSlice (jsTrim rawLine) 16 (-2))).2 = "" →
        gibStep st rawLine = .ok st' →
        getP st.props "BR" = some v →
        getP st'.props "BR" = some v) ∧
    (∀ (st st' : GibState) (rawLine : String),
        jsStartsWith (jsTrim rawLine) "\\[GAMEWHITENAME=" = true →
        jsEndsWith (jsTrim rawLine) "\\]" = true →
        ¬ (parsePlayerName (jsSlice (jsTrim rawLine) 16 (-2))).1 = "" →
        gibStep st rawLine = .ok st' →
        getP st'.props "PW" =
          some [safeString (parsePlayerName (jsSlice (jsTrim rawLine) 16 (-2))).1]) ∧
    (∀ (st st' : GibState) (rawLine : String),
        jsStartsWith (jsTrim rawLine) "\\[GAMEWHITENAME=" = true →
        jsEndsWith (jsTrim rawLine) "\\]" = true →
        ¬ (parsePlayerName (jsSlice (jsTrim rawLine) 16 (-2))).2 = "" →
        gibStep st rawLine = .ok st' →
        getP st'.props "WR" =
          some [safeString (parsePlayerName (jsSlice (jsTrim rawLine) 16 (-2))).2]) ∧
    (∀ (st st' : GibState) (rawLine : String) (v : List String),
        jsStartsWith (jsTrim rawLine) "\\[GAMEWHITENAME=" = true →
        jsEndsWith (jsTrim rawLine) "\\]" = true →
        (parsePlayerName (jsSlice (jsTrim rawLine) 16 (-2))).2 = "" →
        gibStep st rawLine = .ok st' →
        getP st.props "WR" = some v →
        getP st'.props "WR" = some v) := by
  refine ⟨?_, ?_, ?_, ?_, ?_, ?_, ?_⟩
  · intro st st' rawLine k v hk hok h
    have hne : (¬ k = "PB") ∧ (¬ k = "BR") ∧ (¬ k = "PW") ∧ (¬ k = "WR") ∧
        (¬ k = "HA") ∧ (¬ k = "AB") := by
      rcases hk with hk | hk | hk <;> subst hk <;> exact ⟨by decide, by decide,
        by decide, by decide, by decide, by decide⟩
    refine gibStep_carries st st' rawLine k v hne.2.2.2.2.1 hne.2.2.2.2.2 hok ?_
    rw [gibWhiteName_getP_ne _ _ _ hne.2.2.1 hne.2.2.2.1,
        gibBlackName_getP_ne _ _ _ hne.1 hne.2.1]
    exact h
  · intro st st' rawLine hstart hend hname hok
    refine gibStep_carries st st' rawLine "PB" _ (by decide) (by decide) hok ?_
    rw [gibWhiteName_getP_ne _ _ _ (by decide) (by decide)]
    exact gibBlackName_sets_name _ _ hstart hend hname
  · intro st st' rawLine hstart hend hrank hok
    refine gibStep_carries st st' rawLine "BR" _ (by decide) (by decide) hok ?_
    rw [gibWhiteName_getP_ne _ _ _ (by decide) (by decide)]
    exact gibBlackName_sets_rank _ _ hstart hend hrank
  · intro st st' rawLine v _hstart _hend hrank hok h
    refine gibStep_carries st st' rawLine "BR" v (by decide) (by decide) hok ?_
    rw [gibWhiteName_getP_ne _ _ _ (by decide) (by decide)]
    exact gibBlackName_rank_pres _ _ _ hrank h
  · intro st st' rawLine hstart hend hname hok
    refine gibStep_carries st st' rawLine "PW" _ (by decide) (by decide) hok ?_
    exact gibWhiteName_sets_name _ _ hstart hend hname
  · intro st st' rawLine hstart hend hrank hok
    refine gibStep_carries st st' rawLine "WR" _ (by decide) (by decide) hok ?_
    exact gibWhiteName_sets_rank _ _ hstart hend hrank
  · intro st st' rawLine v _hstart _hend hrank hok h
    refine gibStep_carries st st' rawLine "WR" v (by decide) (by decide) hok ?_
    refine gibWhiteName_rank_pres _ _ _ hrank ?_
    rw [gibBlackName_getP_ne _ _ _ (by decide) (by decide)]
    exact h

/-- Witness for C8: a GAMETAG line does not change an already-present
result; a GAMEBLACKNAME line overwrites an already-present black player
name and rank; a white-name line without a rank overwrites PW but leaves
an earlier WR untouched. -/
theorem claim8_witness :
    (∃ st', gibStep { props := [("RE", ["B+R"])], chain := [] }
        "\\[GAMETAG=S1,W4,Z0,\\]" = .ok st' ∧
      getP st'.props "RE" = some ["B+R"]) ∧
    (∃ st', gibStep { props := [("PB", ["Alice"]), ("BR", ["3d"])], chain := [] }
        "\\[GAMEBLACKNAME=Bob(7p)\\]" = .ok st' ∧
      getP st'.props "PB" = some ["Bob"] ∧
      getP st'.props "BR" = some ["7p"]) ∧
    (∃ st', gibStep { props := [("PW", ["Carol"]), ("WR", ["2k"])], chain := [] }
        "\\[GAMEWHITENAME=Dana\\]" = .ok st' ∧
      getP st'.props "PW" = some ["Dana"] ∧
      getP st'.props "WR" = some ["2k"]) := by
  refine ⟨?_, ?_, ?_⟩
  · refine ⟨{ props := [("RE", ["B+R"])], chain := [] }, by rfl, ?_⟩
    exact claim8_assignment_discipline.1
      { props := [("RE", ["B+R"])], chain := [] }
      { props := [("RE", ["B+R"])], chain := [] }
      "\\[GAMETAG=S1,W4,Z0,\\]" "RE" ["B+R"] (Or.inl rfl) (by rfl) rfl
  · refine ⟨{ props := [("PB", ["Bob"]), ("BR", ["7p"])], chain := [] }, by rfl, ?_, ?_⟩
    · have h := claim8_assignment_discipline.2.1
        { props := [("PB", ["Alice"]), ("BR", ["3d"])], chain := [] }
        { props := [("PB", ["Bob"]), ("BR", ["7p"])], chain := [] }
        "\\[GAMEBLACKNAME=Bob(7p)\\]" (by rfl) (by rfl) (by decide) (by rfl)
      simpa using h
    · have h := claim8_assignment_discipline.2.2.1
        { props := [("PB", ["Alice"]), ("BR", ["3d"])], chain := [] }
        { props := [("PB", ["Bob"]), ("BR", ["7p"])], chain := [] }
        "\\[GAMEBLACKNAME=Bob(7p)\\]" (by rfl) (by rfl) (by decide) (by rfl)
      simpa using h
  · refine ⟨{ props := [("PW", ["Dana"]), ("WR", ["2k"])], chain := [] }, by rfl, ?_, ?_⟩
    · have h := claim8_assignment_discipline.2.2.2.2.1
        { props := [("PW", ["Carol"]), ("WR", ["2k"])], chain := [] }
        { props := [("PW", ["Dana"]), ("WR", ["2k"])], chain := [] }
        "\\[GAMEWHITENAME=Dana\\]" (by rfl) (by rfl) (by decide) (by rfl)
      simpa using h
    · exact claim8_assignment_discipline.2.2.2.2.2.2
        { props := [("PW", ["Carol"]), ("WR", ["2k"])], chain := [] }
        { props := [("PW", ["Dana"]), ("WR", ["2k"])], chain := [] }
        "\\[GAMEWHITENAME=Dana\\]" ["2k"] (by rfl) (by rfl) (by decide) (by rfl) rfl

/-! ### Claims C3 and C4: the inverted parseNgf header guards -/

/-- Claim C3 evaluation: the `Number.isInteger` guards of parseNgf are
inverted, so with an unparsable board-size line the stored size is "NaN"
rather than the claimed default 19, and with the parsable board-size line
"13" and the out-of-range handicap line "15" the parse succeeds (storing
size 19 and no handicap) instead of failing with ParserFail as the claim
requires. -/
theorem claim3_code_eval :
    rootProp (parseNgf "a\nx\nw\nb\nx\n15\nx\nx\nx\nx\nx\nPM1MBBB") "SZ" =
      some ["NaN"] ∧
    rootProp (parseNgf "a\n13\nw\nb\nx\n15\nx\nx\nx\nx\nx\nPM1MBBB") "SZ" =
      some ["19"] ∧
    rootProp (parseNgf "a\n13\nw\nb\nx\n15\nx\nx\nx\nx\nx\nPM1MBBB") "HA" =
      none := by
  refine ⟨rfl, rfl, rfl⟩

/-- Claim C4 evaluation: with handicap line "0" and whole-number komi line
"7", parseNgf stores komi "0.5" — the inverted `Number.isFinite` guard
resets every parsable komi to 0 before the `+ 0.5` rule — not the "7.5"
the claim requires. -/
theorem claim4_code_eval :
    rootProp (parseNgf "a\n19\nw\nb\nx\n0\nx\n7\nx\nx\nx\nPM1MBBB") "KM" =
      some ["0.5"] ∧
    ¬ rootProp (parseNgf "a\n19\nw\nb\nx\n0\nx\n7\nx\nx\nx\nPM1MBBB") "KM" =
      some ["7.5"] := by
  refine ⟨rfl, by decide⟩

end Xyz2Sgf
